/-
  Verification of the pest micro-benchmark toolkit
  (src/pest/bitmask-distribution.hxx, src/pest/pnch.hxx).

  Shallow embedding conventions:
  * `double` values are modelled as exact rationals (ℚ); Kahan compensated
    summation is transcribed literally and shown to equal the exact sum.
  * fixed-width machine integers are modelled as ℕ / ℤ with explicit
    reduction modulo 2^w where the C++ code casts or may wrap.
  * the random generator is a stream `gen : ℕ → ℕ` together with a cursor
    index; the rejection loop carries explicit fuel and returns `Option`.
-/
import Mathlib

namespace emptyspace

/-- Interpret a `w`-bit pattern `n` as a two's-complement signed value
(models `static_cast<result_type>` from the unsigned range type). -/
def toSigned (w : ℕ) (n : ℕ) : ℤ :=
  if n < 2 ^ (w - 1) then (n : ℤ) else (n : ℤ) - 2 ^ w

/-- Reduce an integer to its `w`-bit unsigned pattern
(models `static_cast<range_type>` of a signed value). -/
def toUnsigned (w : ℕ) (z : ℤ) : ℕ :=
  (z % (2 ^ w : ℤ)).toNat

/-- `w`-bit signed addition with two's-complement wraparound
(models `+` on `result_type`). -/
def signedAdd (w : ℕ) (a b : ℤ) : ℤ :=
  toSigned w (toUnsigned w (a + b))

namespace detail

/-- The leading-zero count of `x` at bit-width `b` (the semantics of the
`__builtin_clz` family at a given width). Structural recursion on the width:
the top bit of a `(b+1)`-bit word is clear iff `x < 2 ^ b`. Precondition of
the C++ builtins: `x > 0`. -/
def clz (b : ℕ) (x : ℕ) : ℕ :=
  match b with
  | 0 => 0
  | b + 1 => if x < 2 ^ b then clz b x + 1 else 0

/-- Models `detail::leading_zeros` for a range type of width `w`: the C++
uses `__builtin_clzll` (64-bit count) only when the type is `std::uint64_t`,
and otherwise `__builtin_clz(static_cast<std::uint32_t>(x))` — a count in
32-bit width after truncation to 32 bits, whatever the native width `w`.
The count is therefore taken in the native width only for `w = 32`
and `w = 64`. -/
def leading_zeros (w : ℕ) (x : ℕ) : ℕ :=
  if w = 64 then clz 64 x else clz 32 (x % 2 ^ 32)

end detail

/-- Models `bitmask_distribution<Int>` for a `w`-bit signed result type:
the immutable pair of `_min` (signed) and `_range` (unsigned). -/
structure bitmask_distribution (w : ℕ) where
  _min : ℤ
  _range : ℕ
deriving DecidableEq

/-- Models the constructor `bitmask_distribution(min, max)`:
`_range = static_cast<range_type>(max - min)`. -/
def bitmask_distribution.make (w : ℕ) (min max : ℤ) : bitmask_distribution w :=
  { _min := min, _range := toUnsigned w (max - min) }

/-- The mask computed in `operator()`:
`std::numeric_limits<range_type>::max() >> detail::leading_zeros(_range)`. -/
def maskOf (w : ℕ) (range : ℕ) : ℕ :=
  (2 ^ w - 1) >>> detail.leading_zeros w range

/-- The rejection loop `do { x = gen() & mask; } while (x > range);`,
with explicit fuel; returns the accepted value and the new generator cursor. -/
def drawLoop (mask range : ℕ) (gen : ℕ → ℕ) : ℕ → ℕ → Option (ℕ × ℕ)
  | _, 0 => none
  | i, fuel + 1 =>
    let x := gen i &&& mask
    if x ≤ range then some (x, i + 1) else drawLoop mask range gen (i + 1) fuel

/-- Models `bitmask_distribution::operator()(gen)`. -/
def bitmask_distribution.draw (w : ℕ) (d : bitmask_distribution w) (gen : ℕ → ℕ)
    (i fuel : ℕ) : Option (ℤ × ℕ) :=
  if d._range = 0 then some (toSigned w (gen i % 2 ^ w), i + 1)
  else
    match drawLoop (maskOf w d._range) d._range gen i fuel with
    | none => none
    | some (x, j) => some (signedAdd w (toSigned w x) d._min, j)

/-- A sequence of `n` successive draws threading the generator cursor;
`none` if any draw runs out of fuel. -/
def bitmask_distribution.drawSeq (w : ℕ) (d : bitmask_distribution w) (gen : ℕ → ℕ)
    (fuel : ℕ) : ℕ → ℕ → Option (List ℤ)
  | _, 0 => some []
  | i, n + 1 =>
    match bitmask_distribution.draw w d gen i fuel with
    | none => none
    | some (v, j) => (bitmask_distribution.drawSeq w d gen fuel j n).map (fun l => v :: l)

namespace pnch

/-- One step of Kahan compensated summation: state is `(sum, c)`. -/
def kahanStep (sc : ℚ × ℚ) (x : ℚ) : ℚ × ℚ :=
  let y := x - sc.2
  let t := sc.1 + y
  (t, (t - sc.1) - y)

/-- The compensated-summation loop of `stats_t::stats_t`
(`double` modelled as exact ℚ). -/
def kahanSum (l : List ℚ) : ℚ :=
  (l.foldl kahanStep (0, 0)).1

/-- Models `detail::stats_t`: min, max, the three quartiles `_q[0..2]`,
mean and unbiased sample variance. -/
structure stats_t where
  _min : ℚ
  _max : ℚ
  _q1 : ℚ
  _q2 : ℚ
  _q3 : ℚ
  _avg : ℚ
  _variance : ℚ
deriving DecidableEq

/-- The sorted, normalized sample sequence: `std::sort` of the raw results,
then each entry divided by `scale = (double)inner_loop_cnt` and decreased by
`offset` (lines 170–178 of pnch.hxx). -/
def normalizedResults (results : List ℚ) (inner_loop_cnt : ℕ) (offset : ℚ) : List ℚ :=
  (List.insertionSort (fun a b => a ≤ b) results).map
    (fun x => x / (inner_loop_cnt : ℚ) - offset)

/-- The body of the `stats_t` constructor after sorting and normalization:
min/max, the `count == 1` special case, Kahan mean, unbiased variance and
the Method-3 quartiles with their `count mod 4` case split. -/
def statsOfNorm (r : List ℚ) : stats_t :=
  let count := r.length
  let minv := r.getD 0 0
  let maxv := r.getD (count - 1) 0
  if count = 1 then
    { _min := minv, _max := maxv, _q1 := r.getD 0 0, _q2 := r.getD 0 0,
      _q3 := r.getD 0 0, _avg := r.getD 0 0, _variance := 0 }
  else
    let avg := kahanSum r / (count : ℚ)
    let variance :=
      kahanSum (r.map (fun x => (x - avg) * (x - avg))) / ((count - 1 : ℕ) : ℚ)
    let q2 :=
      if count % 2 = 0 then (r.getD (count / 2 - 1) 0 + r.getD (count / 2) 0) * (0.5 : ℚ)
      else r.getD (count / 2) 0
    let q1 :=
      if count % 2 = 0 then
        if count % 4 = 0 then (r.getD (count / 4 - 1) 0 + r.getD (count / 4) 0) * (0.5 : ℚ)
        else r.getD (count / 4) 0
      else if count % 4 = 1 then
        r.getD (count / 4 - 1) 0 * (0.25 : ℚ) + r.getD (count / 4) 0 * (0.75 : ℚ)
      else
        r.getD (count / 4) 0 * (0.75 : ℚ) + r.getD (count / 4 + 1) 0 * (0.25 : ℚ)
    let q3 :=
      if count % 2 = 0 then
        if count % 4 = 0 then
          (r.getD (count / 2 + count / 4 - 1) 0 + r.getD (count / 2 + count / 4) 0) * (0.5 : ℚ)
        else r.getD (count / 2 + count / 4) 0
      else if count % 4 = 1 then
        r.getD (count / 4 * 3) 0 * (0.75 : ℚ) + r.getD (count / 4 * 3 + 1) 0 * (0.25 : ℚ)
      else
        r.getD (count / 4 * 3 + 1) 0 * (0.25 : ℚ) + r.getD (count / 4 * 3 + 2) 0 * (0.75 : ℚ)
    { _min := minv, _max := maxv, _q1 := q1, _q2 := q2, _q3 := q3,
      _avg := avg, _variance := variance }

/-- Models the constructor `stats_t(results, inner_loop_cnt, offset)`. -/
def stats_t.compute (results : List ℚ) (inner_loop_cnt : ℕ) (offset : ℚ) : stats_t :=
  statsOfNorm (normalizedResults results inner_loop_cnt offset)

/-- Models `pnch::config`: loop counts, name, the lazily cached statistics,
the additive offset and the raw sample sequence. The `perfc` resource
snapshots carry no data relevant to these claims and are omitted. -/
structure config where
  _inner_loop_cnt : ℕ
  _outer_loop_cnt : ℕ
  _name : String
  _cached_stats : Option stats_t
  _offset : ℚ
  _results : List ℚ

/-- Models `config::reset`: drop the cached statistics and zero the offset. -/
def config.reset (c : config) : config :=
  { c with _cached_stats := none, _offset := 0 }

/-- Models `config::stats`: return the cached statistics, computing and
caching them first if absent; the updated object is returned alongside. -/
def config.stats (c : config) : stats_t × config :=
  match c._cached_stats with
  | some s => (s, c)
  | none =>
    let s := stats_t.compute c._results c._inner_loop_cnt c._offset
    (s, { c with _cached_stats := some s })

/-- Models `config::i`: reset, clear the samples, set the inner-loop count. -/
def config.i (c : config) (inner_loop_cnt : ℕ) : config :=
  { c.reset with _results := [], _inner_loop_cnt := inner_loop_cnt }

/-- Models `config::o`: reset, clear the samples, set the outer-loop count. -/
def config.o (c : config) (outer_loop_cnt : ℕ) : config :=
  { c.reset with _results := [], _outer_loop_cnt := outer_loop_cnt }

/-- Models `config::offset`: reset, then store the new offset. -/
def config.offset (c : config) (offset : ℚ) : config :=
  { c.reset with _offset := offset }

/-- The inner loop of `config::run`: `inner_loop_cnt` back-to-back
invocations of the user closure, modelled as a state transformer. -/
def innerLoop {σ : Type} (func : σ → σ) : ℕ → σ → σ
  | 0, s => s
  | n + 1, s => innerLoop func n (func s)

/-- The outer loop of `config::run`: each iteration runs the inner loop and
appends the elapsed nanoseconds of that batch — supplied by the clock oracle
`elapsed`, indexed by outer iteration — to the sample sequence. -/
def runLoop {σ : Type} (inner : ℕ) (func : σ → σ) (elapsed : ℕ → ℚ) :
    ℕ → ℕ → List ℚ → σ → List ℚ × σ
  | _, 0, res, s => (res, s)
  | i, n + 1, res, s =>
    runLoop inner func elapsed (i + 1) n (res ++ [elapsed i]) (innerLoop func inner s)

/-- Models `config::run(name, func)`: reset, clear samples, store the name,
time `_outer_loop_cnt` batches of `_inner_loop_cnt` closure invocations.
The closure's side effects are threaded through the state `s`. -/
def config.run {σ : Type} (c : config) (name : String) (func : σ → σ) (s : σ)
    (elapsed : ℕ → ℚ) : config × σ :=
  let p := runLoop c._inner_loop_cnt func elapsed 0 c._outer_loop_cnt [] s
  ({ c.reset with _results := p.1, _name := name }, p.2)

/-- Models the unit-scaling branch of `oneshot::report_to` (lines 384–391):
the rendered value and unit suffix for a stored elapsed time `d` in ns. -/
def oneshot_report_delta (d : ℚ) : ℚ × String :=
  if d > 1000000000 then (d / 1000000000, "s")
  else if d > 1000000 then (d / 1000000, "ms")
  else if d > 1000 then (d / 1000, "us")
  else (d, "ns")

end pnch

/-! ### Lemmas about the sampler -/

/-- `clz` agrees with `width - bit-length` on nonzero in-width inputs. -/
theorem clz_eq_sub_size (b x : ℕ) (hx : 0 < x) (hb : x < 2 ^ b) :
    detail.clz b x = b - Nat.size x := by
  induction b with
  | zero => omega
  | succ b ih =>
    rw [detail.clz]
    split
    · rename_i h
      have hs : Nat.size x ≤ b := Nat.size_le.mpr h
      rw [ih h]
      omega
    · rename_i h
      have h1 : Nat.size x ≤ b + 1 := Nat.size_le.mpr hb
      have h2 : ¬ Nat.size x ≤ b := fun hle => h (Nat.size_le.mp hle)
      omega

/-- At the widths the program counts natively — 32 bits (every non-`uint64_t`
range type of that width) and 64 bits (`uint64_t`) — `leading_zeros` is the
in-width count. -/
theorem leading_zeros_eq_clz (w x : ℕ) (hwe : w = 32 ∨ w = 64) (hx : x < 2 ^ w) :
    detail.leading_zeros w x = detail.clz w x := by
  rcases hwe with rfl | rfl
  · rw [detail.leading_zeros, if_neg (by omega), Nat.mod_eq_of_lt hx]
  · rw [detail.leading_zeros, if_pos rfl]

theorem mul_sub_one_div (a b : ℕ) (ha : 0 < a) (hb : 0 < b) :
    (a * b - 1) / a = b - 1 := by
  obtain ⟨c, rfl⟩ : ∃ c, b = c + 1 := ⟨b - 1, by omega⟩
  have h : a * (c + 1) - 1 = (a - 1) + a * c := by
    have hm : a * (c + 1) = a * c + a := by ring
    omega
  rw [h, Nat.add_mul_div_left _ _ ha, Nat.div_eq_of_lt (by omega)]
  omega

/-- At native count widths 32 and 64, the computed mask is the all-ones
pattern of the bit-length of `x`. -/
theorem maskOf_eq (w x : ℕ) (hwe : w = 32 ∨ w = 64) (hx : 0 < x) (hw : x < 2 ^ w) :
    maskOf w x = 2 ^ Nat.size x - 1 := by
  have hs : Nat.size x ≤ w := Nat.size_le.mpr hw
  rw [maskOf, leading_zeros_eq_clz w x hwe hw, clz_eq_sub_size w x hx hw,
    Nat.shiftRight_eq_div_pow]
  obtain ⟨t, rfl⟩ : ∃ t, w = t + Nat.size x := ⟨w - Nat.size x, by omega⟩
  rw [show t + Nat.size x - Nat.size x = t by omega, pow_add]
  have h2 : (0:ℕ) < 2 ^ t := Nat.pos_pow_of_pos t (by norm_num)
  have h3 : (0:ℕ) < 2 ^ Nat.size x := Nat.pos_pow_of_pos _ (by norm_num)
  rw [show (2:ℕ) ^ t * 2 ^ Nat.size x - 1 = 2 ^ t * 2 ^ Nat.size x - 1 from rfl]
  exact mul_sub_one_div _ _ h2 h3

/-- An accepted value of the rejection loop is at most `range`. -/
theorem drawLoop_le (mask range : ℕ) (gen : ℕ → ℕ) :
    ∀ fuel i x j, drawLoop mask range gen i fuel = some (x, j) → x ≤ range := by
  intro fuel
  induction fuel with
  | zero => intro i x j h; simp [drawLoop] at h
  | succ fuel ih =>
    intro i x j h
    rw [drawLoop] at h
    split at h
    · rename_i hc
      obtain ⟨rfl, rfl⟩ : gen i &&& mask = x ∧ i + 1 = j := by
        constructor <;> (injection h with h; injection h)
      exact hc
    · exact ih (i + 1) x j h

/-- Round-tripping a value through the `w`-bit pattern is the identity on
the signed range. -/
theorem toSigned_toUnsigned (w : ℕ) (z : ℤ) (hw : 0 < w)
    (hlo : -(2 ^ (w - 1) : ℤ) ≤ z) (hhi : z < 2 ^ (w - 1)) :
    toSigned w (toUnsigned w z) = z := by
  obtain ⟨v, rfl⟩ : ∃ v, w = v + 1 := ⟨w - 1, by omega⟩
  simp only [Nat.add_sub_cancel] at hlo hhi
  have hA0 : (0:ℤ) < 2 ^ v := by positivity
  have hm0 : (0:ℤ) < 2 ^ (v + 1) := by positivity
  have hs : (2:ℤ) ^ (v + 1) = 2 ^ v + 2 ^ v := by ring
  have hmem : z % (2 ^ (v+1) : ℤ) = z ∨ z % (2 ^ (v+1) : ℤ) = z + 2 ^ (v+1) := by
    rcases le_or_lt 0 z with hz | hz
    · exact Or.inl (Int.emod_eq_of_lt hz (by linarith))
    · right
      have h1 : (z + 2 ^ (v+1)) % (2 ^ (v+1) : ℤ) = z % (2 ^ (v+1)) := by
        have h2 : z + 2 ^ (v+1) = z + 2 ^ (v+1) * 1 := by ring
        rw [h2, Int.add_mul_emod_self_left]
      rw [← h1, Int.emod_eq_of_lt (by linarith) (by linarith)]
  have hnn : (0:ℤ) ≤ z % (2 ^ (v+1) : ℤ) := Int.emod_nonneg z (by positivity)
  rw [toSigned, toUnsigned]
  simp only [Nat.add_sub_cancel]
  have hcast : (((z % (2 ^ (v+1) : ℤ)).toNat : ℤ)) = z % (2 ^ (v+1) : ℤ) :=
    Int.toNat_of_nonneg hnn
  split
  · rename_i hcon
    have hcon' : (((z % (2 ^ (v+1) : ℤ)).toNat : ℤ)) < 2 ^ v := by exact_mod_cast hcon
    rcases hmem with h | h
    · rw [hcast, h]
    · exfalso
      rw [hcast, h] at hcon'
      linarith
  · rename_i hcon
    have hge : (2:ℕ) ^ v ≤ (z % (2 ^ (v+1) : ℤ)).toNat := by omega
    have hge' : (2:ℤ) ^ v ≤ (((z % (2 ^ (v+1) : ℤ)).toNat : ℤ)) := by exact_mod_cast hge
    rcases hmem with h | h
    · exfalso
      rw [hcast, h] at hge'
      linarith
    · rw [hcast, h]
      ring

/-- The stored `_range` equals `max - min` exactly when `min < max` and both
fit in `w`-bit signed range. -/
theorem make_range (w : ℕ) (min max : ℤ) (hw : 0 < w)
    (hlo : -(2 ^ (w - 1) : ℤ) ≤ min) (hhi : max < 2 ^ (w - 1)) (hlt : min < max) :
    ((bitmask_distribution.make w min max)._range : ℤ) = max - min ∧
    0 < (bitmask_distribution.make w min max)._range ∧
    (bitmask_distribution.make w min max)._range < 2 ^ w := by
  obtain ⟨v, rfl⟩ : ∃ v, w = v + 1 := ⟨w - 1, by omega⟩
  simp only [Nat.add_sub_cancel] at hlo hhi
  rw [bitmask_distribution.make]
  simp only [toUnsigned]
  have hA0 : (0:ℤ) < 2 ^ v := by positivity
  have hs : (2:ℤ) ^ (v + 1) = 2 ^ v + 2 ^ v := by ring
  have h1 : (0:ℤ) < max - min := by linarith
  have h2 : max - min < 2 ^ (v+1) := by linarith
  rw [Int.emod_eq_of_lt (by linarith) h2]
  have hc : ((max - min).toNat : ℤ) = max - min := Int.toNat_of_nonneg (by linarith)
  refine ⟨hc, by omega, ?_⟩
  have : ((max - min).toNat : ℤ) < (2:ℤ) ^ (v+1) := by rw [hc]; exact h2
  exact_mod_cast this

/-- C1: for every `(min, max)` with `min < max` (representable in the `w`-bit
signed result type) and every generator, a successful `draw` returns `v` with
`min ≤ v ≤ max`. -/
theorem C1_draw_within_bounds (w : ℕ) (min max : ℤ) (gen : ℕ → ℕ) (i fuel : ℕ)
    (v : ℤ) (j : ℕ) (hw : 0 < w)
    (hlo : -(2 ^ (w - 1) : ℤ) ≤ min) (hhi : max < 2 ^ (w - 1)) (hlt : min < max)
    (hd : bitmask_distribution.draw w (bitmask_distribution.make w min max) gen i fuel
          = some (v, j)) :
    min ≤ v ∧ v ≤ max := by
  obtain ⟨hcast, hpos, hlt2w⟩ := make_range w min max hw hlo hhi hlt
  rw [bitmask_distribution.draw, if_neg (by omega)] at hd
  cases hdl : drawLoop (maskOf w (bitmask_distribution.make w min max)._range)
      (bitmask_distribution.make w min max)._range gen i fuel with
  | none => rw [hdl] at hd; exact absurd hd (by simp)
  | some p =>
    obtain ⟨x, j'⟩ := p
    rw [hdl] at hd
    simp only [Option.some.injEq, Prod.mk.injEq] at hd
    obtain ⟨hv, rfl⟩ := hd
    have hxr : x ≤ (bitmask_distribution.make w min max)._range :=
      drawLoop_le _ _ gen fuel i x j' hdl
    have hxz : (x:ℤ) ≤ max - min := by
      rw [← hcast]; exact_mod_cast hxr
    have hx0 : (0:ℤ) ≤ (x:ℤ) := Int.natCast_nonneg x
    have hts : toSigned w x = (x:ℤ) ∨ toSigned w x = (x:ℤ) - 2 ^ w := by
      rw [toSigned]; split
      · exact Or.inl rfl
      · exact Or.inr rfl
    have hmod : toUnsigned w (toSigned w x + min) = toUnsigned w ((x:ℤ) + min) := by
      rcases hts with h | h <;> rw [h]
      rw [toUnsigned, toUnsigned]
      congr 1
      have he : (x:ℤ) - 2 ^ w + min = ((x:ℤ) + min) + (2:ℤ) ^ w * (-1) := by ring
      rw [he, Int.add_mul_emod_self_left]
    have hlo2 : -(2 ^ (w - 1) : ℤ) ≤ (x:ℤ) + min := by linarith
    have hhi2 : (x:ℤ) + min < 2 ^ (w - 1) := by linarith
    have hminf : (bitmask_distribution.make w min max)._min = min := rfl
    have hvv : v = (x:ℤ) + min := by
      rw [← hv, hminf, signedAdd, hmod]
      exact toSigned_toUnsigned w ((x:ℤ) + min) hw hlo2 hhi2
    constructor
    · rw [hvv]; linarith
    · rw [hvv]; linarith

/-- C1 witness: `draw` over a 32-bit type with `(min, max) = (-5, 10)` and
the constant generator `7` succeeds (mask 15, `7 ≤ 15` accepted at once) and
lands in `[-5, 10]`. -/
theorem C1_draw_within_bounds_witness :
    (0 < 32 ∧ -(2 ^ (32 - 1) : ℤ) ≤ -5 ∧ (10:ℤ) < 2 ^ (32 - 1) ∧ (-5:ℤ) < 10 ∧
      bitmask_distribution.draw 32 (bitmask_distribution.make 32 (-5) 10)
        (fun _ => 7) 0 1 = some (2, 1)) ∧
    (-5:ℤ) ≤ 2 ∧ (2:ℤ) ≤ 10 :=
  ⟨⟨by decide, by decide, by decide, by decide, by decide⟩,
    C1_draw_within_bounds 32 (-5) 10 (fun _ => 7) 0 1 2 1
      (by decide) (by decide) (by decide) (by decide) (by decide)⟩

/-- C2 counterexample: for a 16-bit range type the leading-zero count is
taken in 32-bit width (`static_cast<std::uint32_t>`), so for `range = 300`
(nonzero and in width) the computed mask is `65535 >>> 23 = 0`, which is not
`≥ range` — the mask is not the smallest `2^k - 1 ≥ range` in the native
width. -/
theorem C2_counterexample_narrow_width :
    (0 < 300 ∧ 300 < 2 ^ 16) ∧
    maskOf 16 300 = 0 ∧
    ¬ 300 ≤ maskOf 16 300 := by
  refine ⟨⟨by decide, by decide⟩, by decide, by decide⟩

/-- C2 (amended): for range types whose native unsigned width is 32 or 64
bits — the widths at which the code's leading-zero count is taken in the
native width — the mask `(2^w - 1) >>> leading_zeros w range` is of the form
`2^k - 1`, is at least `range`, and is the smallest such value. For narrower
range types the count is taken in 32-bit width and the mask can be 0. -/
theorem C2_mask_smallest (w range : ℕ) (hwe : w = 32 ∨ w = 64)
    (h0 : 0 < range) (hw : range < 2 ^ w) :
    (∃ k, maskOf w range = 2 ^ k - 1) ∧
    range ≤ maskOf w range ∧
    ∀ m k, m = 2 ^ k - 1 → range ≤ m → maskOf w range ≤ m := by
  rw [maskOf_eq w range hwe h0 hw]
  refine ⟨⟨Nat.size range, rfl⟩, ?_, ?_⟩
  · have := Nat.lt_size_self range
    omega
  · rintro m k rfl hm
    have hk0 : (0:ℕ) < 2 ^ k := Nat.pos_pow_of_pos _ (by norm_num)
    have hk : range < 2 ^ k := by omega
    have h1 : Nat.size range ≤ k := Nat.size_le.mpr hk
    have h2 : (2:ℕ) ^ Nat.size range ≤ 2 ^ k := Nat.pow_le_pow_right (by norm_num) h1
    omega

/-- C2 witness: width 32, `range = 23`: the mask is `31 = 2^5 - 1`. -/
theorem C2_mask_smallest_witness :
    ((32 = 32 ∨ 32 = 64) ∧ 0 < 23 ∧ 23 < 2 ^ 32) ∧
    ((∃ k, maskOf 32 23 = 2 ^ k - 1) ∧
      23 ≤ maskOf 32 23 ∧
      ∀ m k, m = 2 ^ k - 1 → 23 ≤ m → maskOf 32 23 ≤ m) :=
  ⟨⟨Or.inl rfl, by decide, by norm_num⟩,
    C2_mask_smallest 32 23 (Or.inl rfl) (by decide) (by norm_num)⟩

/-- C9: two draw sequences from samplers built with the same `(min, max)` and
generators in identical states coincide; the sampler carries no mutable state,
so the output is a function of `(min, max)` and the generator stream alone. -/
theorem C9_draw_deterministic (w : ℕ) (min max : ℤ) (gen₁ gen₂ : ℕ → ℕ)
    (fuel i n : ℕ) (hg : ∀ j, gen₁ j = gen₂ j) :
    bitmask_distribution.drawSeq w (bitmask_distribution.make w min max) gen₁ fuel i n
      = bitmask_distribution.drawSeq w (bitmask_distribution.make w min max) gen₂ fuel i n := by
  have h : gen₁ = gen₂ := funext hg
  rw [h]

/-- C9 witness: two extensionally equal generators give identical 3-draw sequences. -/
theorem C9_draw_deterministic_witness :
    (∀ j : ℕ, 0 + j = j) ∧
    bitmask_distribution.drawSeq 8 (bitmask_distribution.make 8 (-5) 10)
        (fun j => 0 + j) 2 0 3
      = bitmask_distribution.drawSeq 8 (bitmask_distribution.make 8 (-5) 10)
        (fun j => j) 2 0 3 :=
  ⟨fun j => Nat.zero_add j,
    C9_draw_deterministic 8 (-5) 10 (fun j => 0 + j) (fun j => j) 2 0 3
      (fun j => Nat.zero_add j)⟩

/-! ### Statistics engine claims -/

namespace pnch

/-- Kahan compensated summation over exact rationals equals the plain sum,
starting from an exactly-represented state `(s, 0)`. -/
theorem kahanFold_eq (l : List ℚ) : ∀ s : ℚ, (l.foldl kahanStep (s, 0)).1 = s + l.sum := by
  induction l with
  | nil => intro s; simp
  | cons x l ih =>
    intro s
    have hstep : kahanStep (s, 0) x = (s + x, 0) := by
      simp [kahanStep]
    rw [List.foldl_cons, hstep, ih (s + x), List.sum_cons]
    ring

theorem kahanSum_eq_sum (l : List ℚ) : kahanSum l = l.sum := by
  rw [kahanSum, kahanFold_eq l 0, zero_add]

/-- Sorting commutes with scaling every sample by a positive constant. -/
theorem insertionSort_map_mul (k : ℚ) (hk : 0 < k) (l : List ℚ) :
    List.insertionSort (fun a b => a ≤ b) (l.map (fun x => k * x))
      = (List.insertionSort (fun a b => a ≤ b) l).map (fun x => k * x) := by
  have hperm :
      List.Perm (List.insertionSort (fun a b => a ≤ b) (l.map (fun x => k * x)))
        ((List.insertionSort (fun a b => a ≤ b) l).map (fun x => k * x)) :=
    (List.perm_insertionSort _ _).trans
      (((List.perm_insertionSort (fun a b => a ≤ b) l).map _).symm)
  have hs1 : List.Sorted (fun a b : ℚ => a ≤ b)
      (List.insertionSort (fun a b => a ≤ b) (l.map (fun x => k * x))) :=
    List.sorted_insertionSort _ _
  have hs2 : List.Sorted (fun a b : ℚ => a ≤ b)
      ((List.insertionSort (fun a b => a ≤ b) l).map (fun x => k * x)) :=
    List.Pairwise.map _
      (fun a b hab => mul_le_mul_of_nonneg_left hab (le_of_lt hk))
      (List.sorted_insertionSort (fun a b => a ≤ b) l)
  exact List.eq_of_perm_of_sorted hperm hs1 hs2

/-- C4: for a single sample `[x]`, positive divisor `d` and offset `f`, all of
min, max, mean, median, Q1, Q3 equal `x / d - f` and the variance is zero
(the `count == 1` special case; no division by `count - 1`). -/
theorem C4_single_sample (x : ℚ) (d : ℕ) (f : ℚ) (_hd : 0 < d) :
    stats_t.compute [x] d f =
      { _min := x / (d:ℚ) - f, _max := x / (d:ℚ) - f, _q1 := x / (d:ℚ) - f,
        _q2 := x / (d:ℚ) - f, _q3 := x / (d:ℚ) - f, _avg := x / (d:ℚ) - f,
        _variance := 0 } := by
  rfl

/-- C4 witness: sample `[5]`, divisor `2`, offset `1` gives `3/2` everywhere
and variance `0`. -/
theorem C4_single_sample_witness :
    0 < 2 ∧
    stats_t.compute [5] 2 1 =
      { _min := (5:ℚ) / 2 - 1, _max := (5:ℚ) / 2 - 1, _q1 := (5:ℚ) / 2 - 1,
        _q2 := (5:ℚ) / 2 - 1, _q3 := (5:ℚ) / 2 - 1, _avg := (5:ℚ) / 2 - 1,
        _variance := 0 } :=
  ⟨by decide, C4_single_sample 5 2 1 (by decide)⟩

/-- C5: for samples `[1,2,3,4]`, divisor 1, offset 0: `min = 1`, `max = 4`,
`mean = 5/2`, `median = 5/2`, `Q1 = 3/2`, `Q3 = 7/2` (Method 3, even count). -/
theorem C5_four_samples :
    (stats_t.compute [1, 2, 3, 4] 1 0)._min = 1 ∧
    (stats_t.compute [1, 2, 3, 4] 1 0)._max = 4 ∧
    (stats_t.compute [1, 2, 3, 4] 1 0)._avg = 5 / 2 ∧
    (stats_t.compute [1, 2, 3, 4] 1 0)._q2 = (2 + 3) / 2 ∧
    (stats_t.compute [1, 2, 3, 4] 1 0)._q1 = (1 + 2) / 2 ∧
    (stats_t.compute [1, 2, 3, 4] 1 0)._q3 = (3 + 4) / 2 := by
  refine ⟨?_, ?_, ?_, ?_, ?_, ?_⟩ <;>
    norm_num [stats_t.compute, normalizedResults, statsOfNorm, kahanSum, kahanStep,
      List.insertionSort, List.orderedInsert]

/-- C6: multiplying every sample by a positive constant `k` and computing the
statistics with divisor `k`, offset 0 reproduces the statistics of the raw
samples with divisor 1, offset 0 — exactly, over exact arithmetic. -/
theorem C6_divisor_normalization (xs : List ℚ) (k : ℕ) (_hne : xs ≠ []) (hk : 0 < k) :
    stats_t.compute (xs.map (fun x => (k:ℚ) * x)) k 0 = stats_t.compute xs 1 0 := by
  have hk' : (0:ℚ) < (k:ℚ) := by exact_mod_cast hk
  unfold stats_t.compute
  congr 1
  unfold normalizedResults
  rw [insertionSort_map_mul (k:ℚ) hk' xs, List.map_map]
  have hfun : ((fun x : ℚ => x / (k:ℚ) - 0) ∘ fun x : ℚ => (k:ℚ) * x)
      = fun x : ℚ => x / ((1:ℕ):ℚ) - 0 := by
    funext x
    have hkne : (k:ℚ) ≠ 0 := ne_of_gt hk'
    field_simp
  rw [hfun]

/-- C6 witness: samples `[1,2]` scaled by `k = 2`. -/
theorem C6_divisor_normalization_witness :
    ([1, 2] ≠ ([] : List ℚ)) ∧ 0 < 2 ∧
    stats_t.compute (([1, 2] : List ℚ).map (fun x => ((2:ℕ):ℚ) * x)) 2 0
      = stats_t.compute [1, 2] 1 0 :=
  ⟨by decide, by decide, C6_divisor_normalization [1, 2] 2 (by decide) (by decide)⟩

/-! ### Harness claims -/

theorem innerLoop_eq_iterate {σ : Type} (func : σ → σ) :
    ∀ n s, innerLoop func n s = func^[n] s := by
  intro n
  induction n with
  | zero => intro s; rfl
  | succ n ih => intro s; rw [innerLoop, ih, Function.iterate_succ_apply]

theorem runLoop_eq {σ : Type} (inner : ℕ) (func : σ → σ) (elapsed : ℕ → ℚ) :
    ∀ n i res s, runLoop inner func elapsed i n res s
      = (res ++ (List.range' i n).map elapsed, func^[inner * n] s) := by
  intro n
  induction n with
  | zero => intro i res s; simp [runLoop]
  | succ n ih =>
    intro i res s
    rw [runLoop, ih, innerLoop_eq_iterate, List.range'_succ]
    refine Prod.ext ?_ ?_
    · simp
    · show func^[inner * n] (func^[inner] s) = func^[inner * (n + 1)] s
      rw [← Function.iterate_add_apply, Nat.mul_succ]

/-- C3: after each of the mutating operations `i`, `o` and `offset` on a
config holding cached statistics, the cache is cleared, and a subsequent
`stats()` recomputes from the current samples, inner-loop count and offset. -/
theorem C3_mutation_clears_cache (c : config) (st : stats_t) (n₁ n₂ : ℕ) (f : ℚ)
    (_hc : c._cached_stats = some st) :
    (c.i n₁)._cached_stats = none ∧
    ((c.i n₁).stats).1
      = stats_t.compute (c.i n₁)._results (c.i n₁)._inner_loop_cnt (c.i n₁)._offset ∧
    (c.o n₂)._cached_stats = none ∧
    ((c.o n₂).stats).1
      = stats_t.compute (c.o n₂)._results (c.o n₂)._inner_loop_cnt (c.o n₂)._offset ∧
    (c.offset f)._cached_stats = none ∧
    ((c.offset f).stats).1
      = stats_t.compute (c.offset f)._results (c.offset f)._inner_loop_cnt
          (c.offset f)._offset :=
  ⟨rfl, rfl, rfl, rfl, rfl, rfl⟩

/-- C3 witness: a config with a (stale) cached statistics object. -/
theorem C3_mutation_clears_cache_witness :
    ((config.mk 1 1 "" (some (stats_t.mk 0 0 0 0 0 0 0)) 0 [3])._cached_stats
        = some (stats_t.mk 0 0 0 0 0 0 0)) ∧
    (((config.mk 1 1 "" (some (stats_t.mk 0 0 0 0 0 0 0)) 0 [3]).i 4)._cached_stats = none ∧
      ((((config.mk 1 1 "" (some (stats_t.mk 0 0 0 0 0 0 0)) 0 [3]).i 4)).stats).1
        = stats_t.compute
            ((config.mk 1 1 "" (some (stats_t.mk 0 0 0 0 0 0 0)) 0 [3]).i 4)._results
            ((config.mk 1 1 "" (some (stats_t.mk 0 0 0 0 0 0 0)) 0 [3]).i 4)._inner_loop_cnt
            ((config.mk 1 1 "" (some (stats_t.mk 0 0 0 0 0 0 0)) 0 [3]).i 4)._offset ∧
      ((config.mk 1 1 "" (some (stats_t.mk 0 0 0 0 0 0 0)) 0 [3]).o 5)._cached_stats = none ∧
      ((((config.mk 1 1 "" (some (stats_t.mk 0 0 0 0 0 0 0)) 0 [3]).o 5)).stats).1
        = stats_t.compute
            ((config.mk 1 1 "" (some (stats_t.mk 0 0 0 0 0 0 0)) 0 [3]).o 5)._results
            ((config.mk 1 1 "" (some (stats_t.mk 0 0 0 0 0 0 0)) 0 [3]).o 5)._inner_loop_cnt
            ((config.mk 1 1 "" (some (stats_t.mk 0 0 0 0 0 0 0)) 0 [3]).o 5)._offset ∧
      ((config.mk 1 1 "" (some (stats_t.mk 0 0 0 0 0 0 0)) 0 [3]).offset 6)._cached_stats
        = none ∧
      ((((config.mk 1 1 "" (some (stats_t.mk 0 0 0 0 0 0 0)) 0 [3]).offset 6)).stats).1
        = stats_t.compute
            ((config.mk 1 1 "" (some (stats_t.mk 0 0 0 0 0 0 0)) 0 [3]).offset 6)._results
            ((config.mk 1 1 "" (some (stats_t.mk 0 0 0 0 0 0 0)) 0 [3]).offset 6)._inner_loop_cnt
            ((config.mk 1 1 "" (some (stats_t.mk 0 0 0 0 0 0 0)) 0 [3]).offset 6)._offset) :=
  ⟨rfl, C3_mutation_clears_cache (config.mk 1 1 "" (some (stats_t.mk 0 0 0 0 0 0 0)) 0 [3])
    (stats_t.mk 0 0 0 0 0 0 0) 4 5 6 rfl⟩

/-- C7: `run` invokes the closure exactly `inner * outer` times and leaves
exactly `outer` samples, one elapsed value per outer iteration; in particular
with inner = 2 and outer = 3 a counter closure reaches exactly 6 and the
sample sequence has length exactly 3. -/
theorem C7_run_invocations {σ : Type} (c : config) (name : String) (func : σ → σ)
    (s : σ) (elapsed : ℕ → ℚ) :
    ((c.run name func s elapsed).1)._results = (List.range c._outer_loop_cnt).map elapsed ∧
    ((c.run name func s elapsed).1)._results.length = c._outer_loop_cnt ∧
    (c.run name func s elapsed).2 = func^[c._inner_loop_cnt * c._outer_loop_cnt] s ∧
    ((config.mk 2 3 "" none 0 []).run "counter" (fun n : ℕ => n + 1) 0 elapsed).2 = 6 ∧
    (((config.mk 2 3 "" none 0 []).run "counter" (fun n : ℕ => n + 1) 0 elapsed).1)._results.length
      = 3 := by
  have key : ∀ (τ : Type) (c' : config) (nm : String) (g : τ → τ) (t : τ),
      (c'.run nm g t elapsed).1._results = (List.range c'._outer_loop_cnt).map elapsed ∧
      (c'.run nm g t elapsed).2 = g^[c'._inner_loop_cnt * c'._outer_loop_cnt] t := by
    intro τ c' nm g t
    have h := runLoop_eq c'._inner_loop_cnt g elapsed c'._outer_loop_cnt 0 [] t
    constructor
    · show (runLoop c'._inner_loop_cnt g elapsed 0 c'._outer_loop_cnt [] t).1 = _
      rw [h, List.range_eq_range']
      simp
    · show (runLoop c'._inner_loop_cnt g elapsed 0 c'._outer_loop_cnt [] t).2 = _
      rw [h]
  obtain ⟨h1, h2⟩ := key σ c name func s
  obtain ⟨h3, h4⟩ := key ℕ (config.mk 2 3 "" none 0 []) "counter" (fun n : ℕ => n + 1) 0
  refine ⟨h1, ?_, h2, ?_, ?_⟩
  · rw [h1]; simp
  · rw [h4]; rfl
  · rw [h3]; simp

/-- C10: `run`, `i` and `o` all reset the stored offset to 0 (via `reset`),
so an offset configured before a run is discarded: statistics read after the
run are computed with offset 0; only an `offset` call made after the run and
before reading the statistics takes effect. -/
theorem C10_run_discards_offset {σ : Type} (c : config) (name : String) (func : σ → σ)
    (s : σ) (elapsed : ℕ → ℚ) (n₁ n₂ : ℕ) (f : ℚ) :
    ((c.run name func s elapsed).1)._offset = 0 ∧
    (c.i n₁)._offset = 0 ∧
    (c.o n₂)._offset = 0 ∧
    (((c.run name func s elapsed).1).stats).1
      = stats_t.compute ((c.run name func s elapsed).1)._results c._inner_loop_cnt 0 ∧
    ((((c.run name func s elapsed).1).offset f).stats).1
      = stats_t.compute ((c.run name func s elapsed).1)._results c._inner_loop_cnt f :=
  ⟨rfl, rfl, rfl, rfl, rfl⟩

/-! ### One-shot report claims -/

/-- C8 counterexample: at exactly `1e9` ns the code renders milliseconds, not
seconds, because the source compares with strict `>` while the claim demands
`≥`. -/
theorem C8_counterexample_at_boundary :
    (1000000000 : ℚ) ≥ 1000000000 ∧
    (oneshot_report_delta 1000000000).2 ≠ "s" ∧
    (oneshot_report_delta 1000000000).2 = "ms" := by
  have h : (oneshot_report_delta 1000000000).2 = "ms" := by
    norm_num [oneshot_report_delta]
  refine ⟨le_refl _, ?_, h⟩
  rw [h]
  decide

/-- C8 (amended): the unit is seconds iff `d > 1e9` ns, milliseconds iff
`1e6 < d ≤ 1e9`, microseconds iff `1e3 < d ≤ 1e6`, and nanoseconds iff
`d ≤ 1e3` — the thresholds are strict; the rendered value is `d` divided by
the chosen unit. -/
theorem C8_unit_selection (d : ℚ) :
    ((oneshot_report_delta d).2 = "s" ↔ 1000000000 < d) ∧
    ((oneshot_report_delta d).2 = "ms" ↔ (1000000 < d ∧ d ≤ 1000000000)) ∧
    ((oneshot_report_delta d).2 = "us" ↔ (1000 < d ∧ d ≤ 1000000)) ∧
    ((oneshot_report_delta d).2 = "ns" ↔ d ≤ 1000) ∧
    (1000000000 < d → (oneshot_report_delta d).1 = d / 1000000000) ∧
    ((1000000 < d ∧ d ≤ 1000000000) → (oneshot_report_delta d).1 = d / 1000000) ∧
    ((1000 < d ∧ d ≤ 1000000) → (oneshot_report_delta d).1 = d / 1000) ∧
    (d ≤ 1000 → (oneshot_report_delta d).1 = d) := by
  rw [oneshot_report_delta]
  split
  · rename_i h
    refine ⟨by simp [h], ?_, ?_, ?_, fun _ => rfl, ?_, ?_, ?_⟩ <;>
      simp <;> intros <;> linarith
  · rename_i h
    split
    · rename_i h2
      refine ⟨by simp; linarith, by simp [h2]; linarith, ?_, ?_, ?_, fun _ => rfl, ?_, ?_⟩ <;>
        simp <;> intros <;> linarith
    · rename_i h2
      split
      · rename_i h3
        refine ⟨by simp; linarith, by simp; intro; linarith, by simp [h3]; linarith,
          by simp; linarith, ?_, ?_, fun _ => rfl, ?_⟩ <;> intros <;> linarith
      · rename_i h3
        refine ⟨by simp; linarith, by simp; intro; linarith, by simp; intro; linarith,
          by simp; linarith, ?_, ?_, ?_, fun _ => rfl⟩ <;> intros <;> linarith

/-- C8 witness: the amended characterization instantiated at `d = 1500` ns. -/
theorem C8_unit_selection_witness :
    ((oneshot_report_delta 1500).2 = "s" ↔ (1000000000 : ℚ) < 1500) ∧
    ((oneshot_report_delta 1500).2 = "ms" ↔ ((1000000 : ℚ) < 1500 ∧ (1500 : ℚ) ≤ 1000000000)) ∧
    ((oneshot_report_delta 1500).2 = "us" ↔ ((1000 : ℚ) < 1500 ∧ (1500 : ℚ) ≤ 1000000)) ∧
    ((oneshot_report_delta 1500).2 = "ns" ↔ (1500 : ℚ) ≤ 1000) ∧
    ((1000000000 : ℚ) < 1500 → (oneshot_report_delta 1500).1 = 1500 / 1000000000) ∧
    (((1000000 : ℚ) < 1500 ∧ (1500 : ℚ) ≤ 1000000000) →
      (oneshot_report_delta 1500).1 = 1500 / 1000000) ∧
    (((1000 : ℚ) < 1500 ∧ (1500 : ℚ) ≤ 1000000) → (oneshot_report_delta 1500).1 = 1500 / 1000) ∧
    ((1500 : ℚ) ≤ 1000 → (oneshot_report_delta 1500).1 = 1500) :=
  C8_unit_selection 1500

end pnch

end emptyspace
